import Mathlib

/-!
Verification of the `gdax_logger` repository's order-book core and logger
handler against its specification.

Modelling conventions (shallow embedding):

* Python numbers (`float` values and numeric strings from the feed) are
  modelled as exact rationals `ℚ`.  Python's `int(x)` truncation toward zero
  is `pyInt`.  The IEEE-754 binary64 rounding that the CPython runtime
  actually performs is modelled separately (`roundDouble` below) and is used
  only where a claim hinges on it.
* Python lists indexed in range are modelled as total functions `ℕ → ℚ`;
  all theorems restrict operations to the price domain in which the source's
  list indices are nonnegative and in range, so Python's negative-index
  wraparound never arises in the modelled runs.
* Wall-clock readings (`time()`, `datetime.utcnow()`) and log/IO side
  effects are outside the model; functions that produce rows keep every
  numeric field and drop only the clock/currency strings, as documented at
  each definition.
-/

-- The Batteries rational primitives are `irreducible`, which hides them from
-- kernel evaluation inside `decide`; concrete runs of the model below need
-- them to compute, so they are made semireducible for this file.
attribute [local semireducible] Rat.mul Rat.add Rat.sub Rat.inv Rat.ofScientific

set_option autoImplicit false
set_option maxRecDepth 10000

/-- Python's `int(x)` on a number: truncation toward zero. -/
def pyInt (q : ℚ) : ℤ := Int.tdiv q.num (q.den : ℤ)

/-- State of `OrderBook` (OrderBook.py).  `tree` models the Python list
`__volume_seg_tree` of length `2 * price_points`; entries outside
`[0, 2 * price_points)` are unused by the modelled operations. -/
structure OrderBook where
  market_price : ℚ
  price_cap : ℚ
  price_points : ℕ
  tree : ℕ → ℚ

namespace OrderBook

/-- `OrderBook.__init__`: market price 0, `price_points = int(price_cap * 100)`,
all-zero segment tree.  (Type/currency validation and logging are dropped.) -/
def init (price_cap : ℚ) : OrderBook :=
  { market_price := 0
    price_cap := price_cap
    price_points := Int.toNat (pyInt (price_cap * 100))
    tree := fun _ => 0 }

/-- `__valid_price`: positive and not above the cap.  (`__valid_number`'s
string-to-float parse always succeeds on the rationals of the model.) -/
def valid_price (st : OrderBook) (price : ℚ) : Prop :=
  0 < price ∧ price ≤ st.price_cap

instance (st : OrderBook) (price : ℚ) : Decidable (st.valid_price price) := by
  unfold valid_price; infer_instance

/-- `__valid_volume`: a nonnegative number. -/
def valid_volume (volume : ℚ) : Prop := 0 ≤ volume

instance (volume : ℚ) : Decidable (valid_volume volume) := by
  unfold valid_volume; infer_instance

/-- `__valid_order`: valid price and valid volume. -/
def valid_order (st : OrderBook) (price volume : ℚ) : Prop :=
  st.valid_price price ∧ valid_volume volume

instance (st : OrderBook) (price volume : ℚ) : Decidable (st.valid_order price volume) := by
  unfold valid_order; infer_instance

/-- Structural-recursion engine for the `while price_index > 1` loop of
`update_volume`.  The loop halves `i` each iteration, so `i` itself bounds the
iteration count; `propagate_eq` below shows the bound is never hit and the
composite has exactly the loop's semantics. -/
def propagateAux (fuel : ℕ) (t : ℕ → ℚ) (i : ℕ) : ℕ → ℚ :=
  match fuel with
  | 0 => t
  | fuel + 1 =>
    if 1 < i then
      propagateAux fuel (Function.update t (i / 2) (t i + t (i ^^^ 1))) (i / 2)
    else t

/-- The `while price_index > 1` loop of `update_volume`: repeatedly write the
parent `i >> 1` with `tree[i] + tree[i ^ 1]` and ascend. -/
def propagate (t : ℕ → ℚ) (i : ℕ) : ℕ → ℚ := propagateAux i t i

/-- `update_volume`: absolute set of the leaf
`price_points + int(price * 100) - 1`, then upward propagation.  Invalid
orders leave the book unchanged (the source only logs a warning). -/
def update_volume (st : OrderBook) (price volume : ℚ) : OrderBook :=
  if st.valid_order price volume then
    let price_index := Int.toNat ((st.price_points : ℤ) + pyInt (price * 100) - 1)
    { st with tree := propagate (Function.update st.tree price_index volume) price_index }
  else st

/-- `update_market_price`: set the market price after validation. -/
def update_market_price (st : OrderBook) (price : ℚ) : OrderBook :=
  if st.valid_price price then { st with market_price := price } else st

/-- Structural-recursion engine for the `while left_index < right_index` loop
of `get_volume_in_range`.  `right_index` halves each iteration, so it bounds
the iteration count; `queryLoop_eq` below recovers the loop's exact
semantics. -/
def queryLoopAux (fuel : ℕ) (t : ℕ → ℚ) (l r : ℕ) (acc : ℚ) : ℚ :=
  match fuel with
  | 0 => acc
  | fuel + 1 =>
    if l < r then
      let acc1 := if l % 2 = 1 then acc + t l else acc
      let l1 := if l % 2 = 1 then l + 1 else l
      let acc2 := if r % 2 = 1 then acc1 + t (r - 1) else acc1
      let r1 := if r % 2 = 1 then r - 1 else r
      queryLoopAux fuel t (l1 / 2) (r1 / 2) acc2
    else acc

/-- The `while left_index < right_index` summation loop of
`get_volume_in_range`. -/
def queryLoop (t : ℕ → ℚ) (l r : ℕ) (acc : ℚ) : ℚ := queryLoopAux r t l r acc

/-- `get_volume_in_range`: validate both bounds, derive the half-open index
interval, and run the segment-tree summation loop. -/
def get_volume_in_range (st : OrderBook) (lower_price_bound upper_price_bound : ℚ) : ℚ :=
  if st.valid_price lower_price_bound ∧ st.valid_price upper_price_bound then
    queryLoop st.tree
      (Int.toNat (pyInt (lower_price_bound * 100 - 1 + st.price_points)))
      (Int.toNat (pyInt ((upper_price_bound + 1/100) * 100 - 1 + st.price_points)))
      0
  else 0

/-- `get_total_volume`: `get_volume_in_range(0.01, price_cap - 0.01)`. -/
def get_total_volume (st : OrderBook) : ℚ :=
  st.get_volume_in_range (1/100) (st.price_cap - 1/100)

/-- `built`: the total volume is nonzero. -/
def built (st : OrderBook) : Bool :=
  decide (st.get_total_volume ≠ 0)

/-- `query`: the sampled row.  The source row is
`[second_time, currency, server_time, price] ++ buy_vols ++ sell_vols ++ [total]`;
the model keeps every numeric field in order and drops the two clock readings
and the currency string. -/
def query (st : OrderBook) (percent_ranges : List ℚ) : List ℚ :=
  let price := st.market_price
  let buy_vols := percent_ranges.map fun percent =>
    st.get_volume_in_range (price - price * percent / 100) price
  let sell_vols := percent_ranges.map fun percent =>
    st.get_volume_in_range price (price + price * percent / 100)
  ([price] ++ buy_vols) ++ sell_vols ++ [st.get_total_volume]

/-- One `__gen_vol_array` loop body: a valid order writes its volume at
`int(price * 100) - 1`. -/
def gen_vol_entry (st : OrderBook) (vols : ℕ → ℚ) (order : ℚ × ℚ) : ℕ → ℚ :=
  if st.valid_order order.1 order.2 then
    Function.update vols (Int.toNat (pyInt (order.1 * 100) - 1)) order.2
  else vols

/-- `__gen_vol_array`: zero array, then the bid orders, then the ask orders. -/
def gen_vol_array (st : OrderBook) (bids asks : List (ℚ × ℚ)) : ℕ → ℚ :=
  asks.foldl st.gen_vol_entry (bids.foldl st.gen_vol_entry fun _ => 0)

/-- The leaf-initialisation loop of `__build_order_book`:
`for i in range(0, price_points): tree[price_points + i] = volumes[i]`. -/
def buildLeaves (pp : ℕ) (vols : ℕ → ℚ) (t : ℕ → ℚ) : ℕ → ℚ :=
  (List.range pp).foldl (fun t i => Function.update t (pp + i) (vols i)) t

/-- The internal-node loop of `__build_order_book` in its descending order:
`dbuild t i` processes indices `i, i-1, …, 0`, writing each with the sum of
its two children. -/
def dbuild (t : ℕ → ℚ) : ℕ → (ℕ → ℚ)
  | 0 => Function.update t 0 (t 0 + t 1)
  | i + 1 => dbuild (Function.update t (i + 1) (t (2 * (i + 1)) + t (2 * (i + 1) + 1))) i

/-- `__build_order_book`: initialise the leaves, then compute all internal
nodes from `price_points - 1` down to `0`. -/
def build_order_book (st : OrderBook) (vols : ℕ → ℚ) : ℕ → ℚ :=
  match st.price_points with
  | 0 => buildLeaves 0 vols st.tree
  | pp + 1 => dbuild (buildLeaves (pp + 1) vols st.tree) pp

/-- `init_book`: rebuild the tree from a snapshot's bid and ask sides. -/
def init_book (st : OrderBook) (bids asks : List (ℚ × ℚ)) : OrderBook :=
  { st with tree := st.build_order_book (st.gen_vol_array bids asks) }

end OrderBook

/-- The book operations reachability is stated over. -/
inductive Op where
  | initBook (bids asks : List (ℚ × ℚ))
  | updateVolume (price volume : ℚ)
  | updateMarketPrice (price : ℚ)

/-- Dispatch one operation. -/
def applyOp (st : OrderBook) : Op → OrderBook
  | .initBook bids asks => st.init_book bids asks
  | .updateVolume p v => st.update_volume p v
  | .updateMarketPrice p => st.update_market_price p

/-- Run a sequence of operations from a given state. -/
def applyOps (st : OrderBook) (ops : List Op) : OrderBook := ops.foldl applyOp st

/-- A price that is a positive exact multiple of one cent ($0.01), the valid
price domain of the specification's data model. -/
def centMul (p : ℚ) : Prop := 0 < p ∧ (p * 100).den = 1

instance (p : ℚ) : Decidable (centMul p) := by
  unfold centMul; infer_instance

/-- The exact cent count of a price. -/
def centsOf (p : ℚ) : ℕ := (p * 100).num.toNat

/-- A valid order in the specification's sense: a positive cent-multiple
price not above the cap, and a nonnegative volume. -/
def SpecValidOrder (cap p v : ℚ) : Prop := centMul p ∧ p ≤ cap ∧ 0 ≤ v

instance (cap p v : ℚ) : Decidable (SpecValidOrder cap p v) := by
  unfold SpecValidOrder; infer_instance

/-- Validity of one operation against a price cap. -/
def ValidOp (cap : ℚ) : Op → Prop
  | .initBook bids asks => ∀ o ∈ bids ++ asks, SpecValidOrder cap o.1 o.2
  | .updateVolume p v => SpecValidOrder cap p v
  | .updateMarketPrice _ => True

instance (cap : ℚ) (op : Op) : Decidable (ValidOp cap op) := by
  unfold ValidOp; cases op <;> infer_instance

/-- Validity of a whole operation sequence. -/
def ValidOps (cap : ℚ) (ops : List Op) : Prop := ∀ op ∈ ops, ValidOp cap op

instance (cap : ℚ) (ops : List Op) : Decidable (ValidOps cap ops) := by
  unfold ValidOps; infer_instance

/-- Invariant I1 of the specification: every internal node carries the sum of
its two children. -/
def I1 (st : OrderBook) : Prop :=
  ∀ i, 1 ≤ i → i < st.price_points → st.tree i = st.tree (2 * i) + st.tree (2 * i + 1)

/-- The well-formedness a freshly constructed book has and every operation
preserves: `price_points` is `int(price_cap * 100)`. -/
def WellFormed (st : OrderBook) : Prop :=
  st.price_points = Int.toNat (pyInt (st.price_cap * 100))

/-- The sum of the leaf entries below node `i` of a segment tree with
`pp` leaves rooted at index `pp`. -/
def subSum (pp : ℕ) (t : ℕ → ℚ) (i : ℕ) : ℚ :=
  if h : 1 ≤ i ∧ i < pp then subSum pp t (2 * i) + subSum pp t (2 * i + 1) else t i
termination_by 2 * pp - i
decreasing_by all_goals omega

/-- The snapshot sides of scenario S4 of the specification, on a $200-cap
book: bids 1.5 @ $100.00 and 2.0 @ $99.50, ask 0.5 @ $100.50. -/
def s4bids : List (ℚ × ℚ) := [(100, 3/2), (199/2, 2)]

/-- The ask side of scenario S4. -/
def s4asks : List (ℚ × ℚ) := [(201/2, 1/2)]

/-- Scenario S4's operation sequence: the snapshot, then
`update_volume("100.00", 3.0)`, then `update_market_price("100.00")`. -/
def s4ops : List Op :=
  [Op.initBook s4bids s4asks, Op.updateVolume 100 3, Op.updateMarketPrice 100]

/-! ### LoggerHandler (LoggerHandler.py) -/

/-- Python's substring test `needle in hay` on strings. -/
def pyStrIn (needle hay : String) : Prop := needle.data <:+: hay.data

instance (needle hay : String) : Decidable (pyStrIn needle hay) :=
  List.decidableInfix needle.data hay.data

namespace GDAXConst

/-- Modelled from the spec: the repository imports `GDAXConstants.py`, which
is not under src/.  The constant values are fixed by the feed message grammar
of the specification (section 6) and by the `tickers` table schema created in
LoggerHandler.py, whose column names must match the frame's JSON keys for the
column filter to retain them.  (`GDAXConst.match` is written `match_msg` here
because `match` is a Lean keyword.) -/
def l2update : String := "l2update"

/-- Modelled from the spec: the `match` frame type. -/
def match_msg : String := "match"

/-- Modelled from the spec: the `snapshot` frame type. -/
def snapshot : String := "snapshot"

/-- Modelled from the spec: the tracked product identifiers. -/
def btc_usd : String := "BTC-USD"

/-- Modelled from the spec. -/
def eth_usd : String := "ETH-USD"

/-- Modelled from the spec. -/
def ltc_usd : String := "LTC-USD"

/-- Modelled from the spec. -/
def bch_usd : String := "BCH-USD"

/-- Modelled from the spec: ticker field names, equal to the `tickers`
column names. -/
def system_time : String := "system_time"

/-- Modelled from the spec. -/
def server_time : String := "server_time"

/-- Modelled from the spec. -/
def product_id : String := "product_id"

/-- Modelled from the spec. -/
def price : String := "price"

/-- Modelled from the spec. -/
def open_24h : String := "open_24h"

/-- Modelled from the spec. -/
def volume_24h : String := "volume_24h"

/-- Modelled from the spec. -/
def best_bid : String := "best_bid"

/-- Modelled from the spec. -/
def best_ask : String := "best_ask"

/-- Modelled from the spec. -/
def side : String := "side"

/-- Modelled from the spec. -/
def last_size : String := "last_size"

end GDAXConst

/-- `LoggerHandler.product_ids`. -/
def product_ids : List String :=
  [GDAXConst.btc_usd, GDAXConst.eth_usd, GDAXConst.ltc_usd, GDAXConst.bch_usd]

/-- An inbound feed frame as `update_order_book` reads it after
`json.loads`: the fields a recognised message may carry.  A change is
`(side, price, new_size)`. -/
structure Message where
  type : String
  product_id : String
  changes : List (String × ℚ × ℚ)
  price : ℚ
  bids : List (ℚ × ℚ)
  asks : List (ℚ × ℚ)

/-- `LoggerHandler.update_order_book`: the three sequential `in`-checks on
`data['type']`.  The l2update branch reads only `changes[0]` — index 1 is the
price and index 2 the size; on an empty changes list the source raises
IndexError, modelled as leaving the books unchanged. -/
def update_order_book (books : String → OrderBook) (m : Message) : String → OrderBook :=
  let books1 :=
    if pyStrIn GDAXConst.l2update m.type then
      match m.changes with
      | [] => books
      | c :: _ =>
        if m.product_id ∈ product_ids then
          Function.update books m.product_id
            ((books m.product_id).update_volume c.2.1 c.2.2)
        else books
    else books
  let books2 :=
    if pyStrIn GDAXConst.match_msg m.type then
      if m.product_id ∈ product_ids then
        Function.update books1 m.product_id
          ((books1 m.product_id).update_market_price m.price)
      else books1
    else books1
  if pyStrIn GDAXConst.snapshot m.type then
    if m.product_id ∈ product_ids then
      Function.update books2 m.product_id ((books2 m.product_id).init_book m.bids m.asks)
    else books2
  else books2

/-- A JSON scalar as it appears in a ticker frame. -/
inductive JVal where
  | num : ℚ → JVal
  | str : String → JVal
deriving DecidableEq

/-- `LoggerHandler.ticker_columns`, in the order the source lists them. -/
def ticker_columns : List String :=
  [GDAXConst.system_time, GDAXConst.server_time, GDAXConst.product_id,
   GDAXConst.price, GDAXConst.open_24h, GDAXConst.volume_24h,
   GDAXConst.best_bid, GDAXConst.best_ask, GDAXConst.side, GDAXConst.last_size]

/-- Python dict assignment `d[k] = v` on an insertion-ordered dict modelled
as an association list: update in place if the key exists, else append. -/
def dict_set (d : List (String × JVal)) (k : String) (v : JVal) : List (String × JVal) :=
  if d.any (fun p => p.1 == k) then d.map (fun p => if p.1 = k then (k, v) else p)
  else d ++ [(k, v)]

/-- `LoggerHandler.insert_ticker`, up to the row handed to the sink: start
`fdata` with the two clock fields (their values are opaque parameters here),
copy over every incoming key that is a ticker column in the frame's own key
order, then flatten the dict's values into the row bound positionally to
`INSERT INTO tickers VALUES (?, …)`. -/
def insert_ticker_row (system_time server_time : JVal)
    (data : List (String × JVal)) : List JVal :=
  (data.foldl
    (fun fd kv => if kv.1 ∈ ticker_columns then dict_set fd kv.1 kv.2 else fd)
    [(GDAXConst.system_time, system_time), (GDAXConst.server_time, server_time)]).map
    Prod.snd

/-- The column order of the `tickers` table, from the CREATE TABLE statement
in LoggerHandler.py.  A row bound positionally lands in these columns in this
order. -/
def tickers_schema : List String :=
  ["system_time", "server_time", "product_id", "price", "open_24h",
   "volume_24h", "best_bid", "best_ask", "side", "last_size"]

/-- A ticker frame with the message shape of section 6 of the specification,
with distinct marker values per numeric field. -/
def s6_ticker_frame : List (String × JVal) :=
  [("type", JVal.str "ticker"), ("product_id", JVal.str "BTC-USD"),
   ("time", JVal.str "2020-01-01T00:00:00.000Z"), ("price", JVal.num (12345/100)),
   ("best_bid", JVal.num 9), ("best_ask", JVal.num 11), ("open_24h", JVal.num 7),
   ("volume_24h", JVal.num 8), ("side", JVal.str "buy"), ("last_size", JVal.num 3),
   ("sequence", JVal.num 42)]

/-- The mutable LoggerHandler state the sink-error path touches. -/
structure HandlerState where
  post_to_slack : Bool
  slack_url : String
  last_error : ℚ

/-- `LoggerHandler.__init__`'s settings of that state at construction time
`now`: posting to the operator channel is off, and the rate-limit clock is
wound back 300 s so a first error may report immediately. -/
def initHandlerState (now : ℚ) : HandlerState :=
  { post_to_slack := false, slack_url := "", last_error := now - 300 }

/-- The `except sqlite3.Error` branch of `LoggerHandler.__write_to_db`
together with `__write_to_slack`, at wall-clock time `now`.  Returns the new
state, whether the message was handed to `__write_to_slack`, and whether
`requests.post` actually fires (it requires `post_to_slack`).  In every
branch the function returns `None` to its caller, so the row is dropped. -/
def write_to_db_onError (st : HandlerState) (err : String) (now : ℚ) :
    HandlerState × Bool × Bool :=
  if ¬ pyStrIn "database is locked" err ∧ ¬ pyStrIn "UNIQUE" err then
    if st.last_error ≤ now - 300 then
      ({ st with last_error := now }, true, st.post_to_slack)
    else (st, false, false)
  else (st, false, false)

/-- A registry holding one fresh $0.05-cap book per product. -/
def c3books : String → OrderBook := fun _ => OrderBook.init (5/100)

/-- An l2update frame for BTC-USD carrying two changes: set 1 at $0.02 and
set 2 at $0.03. -/
def c3frame : Message :=
  { type := "l2update", product_id := "BTC-USD",
    changes := [("buy", 2/100, 1), ("sell", 3/100, 2)],
    price := 0, bids := [], asks := [] }

/-! ### IEEE-754 binary64 arithmetic, for the price-string conversion -/

/-- Floor of a rational, computed directly so the kernel evaluates it. -/
def ratFloor (q : ℚ) : ℤ := Int.fdiv q.num (q.den : ℤ)

/-- Round a rational to the nearest integer, ties to even. -/
def roundHalfEven (q : ℚ) : ℤ :=
  let n := ratFloor q
  if q - n < 1/2 then n
  else if (1/2 : ℚ) < q - n then n + 1
  else if n % 2 = 0 then n else n + 1

/-- Floor of the base-2 logarithm for `1 ≤ n < 2^65`. -/
def log2floor (n : ℕ) : ℕ :=
  (List.range 64).foldl (fun acc k => if 2 ^ (k + 1) ≤ n then k + 1 else acc) 0

/-- IEEE-754 binary64 round-to-nearest-even of a rational `1 ≤ q < 2^53`:
snap `q` to the 53-bit significand grid of its binade.  This is the rounding
CPython applies both when parsing a decimal string to a `float` and after
every `float` multiplication. -/
def roundDouble (q : ℚ) : ℚ :=
  let e := log2floor (ratFloor q).toNat
  (roundHalfEven (q * 2 ^ (52 - e)) : ℚ) / 2 ^ (52 - e)

/-- The leaf index `price_points + int(float(price) * 100) - 1` that
`update_volume` computes, under CPython's actual binary64 arithmetic: the
price string parses to the nearest double, the multiplication by 100 rounds
again, and `int()` truncates toward zero. -/
def update_volume_leaf_index_ieee (price_points : ℕ) (priceDecimal : ℚ) : ℤ :=
  price_points + pyInt (roundDouble (roundDouble priceDecimal * 100)) - 1

theorem OrderBook.propagateAux_congr : ∀ (f₁ f₂ : ℕ) (t : ℕ → ℚ) (i : ℕ), i ≤ f₁ → i ≤ f₂ →
    propagateAux f₁ t i = propagateAux f₂ t i := by
  intro f₁
  induction f₁ with
  | zero =>
    intro f₂ t i h₁ h₂
    interval_cases i
    cases f₂ <;> simp [propagateAux]
  | succ f ih =>
    intro f₂ t i h₁ h₂
    by_cases hi : 1 < i
    · obtain ⟨g, rfl⟩ : ∃ g, f₂ = g + 1 := ⟨f₂ - 1, by omega⟩
      simp only [propagateAux, if_pos hi]
      exact ih g _ (i / 2) (by omega) (by omega)
    · cases f₂ <;> simp [propagateAux, hi]

/-- The one-step unfolding of the `while price_index > 1` loop. -/
theorem OrderBook.propagate_eq (t : ℕ → ℚ) (i : ℕ) :
    propagate t i =
      if 1 < i then propagate (Function.update t (i / 2) (t i + t (i ^^^ 1))) (i / 2)
      else t := by
  unfold propagate
  match i with
  | 0 => simp [propagateAux]
  | n + 1 =>
    by_cases hi : 1 < n + 1
    · simp only [propagateAux, if_pos hi]
      exact propagateAux_congr n _ _ ((n + 1) / 2) (by omega) (by omega)
    · simp [propagateAux, hi]

theorem OrderBook.queryLoopAux_congr : ∀ (f₁ f₂ : ℕ) (t : ℕ → ℚ) (l r : ℕ) (acc : ℚ),
    r ≤ f₁ → r ≤ f₂ → queryLoopAux f₁ t l r acc = queryLoopAux f₂ t l r acc := by
  intro f₁
  induction f₁ with
  | zero =>
    intro f₂ t l r acc h₁ h₂
    interval_cases r
    cases f₂ <;> simp [queryLoopAux]
  | succ f ih =>
    intro f₂ t l r acc h₁ h₂
    by_cases hlr : l < r
    · obtain ⟨g, rfl⟩ : ∃ g, f₂ = g + 1 := ⟨f₂ - 1, by omega⟩
      simp only [queryLoopAux, if_pos hlr]
      exact ih g _ _ _ _ (by split <;> omega) (by split <;> omega)
    · cases f₂ <;> simp [queryLoopAux, hlr]

/-- The one-step unfolding of the range-summation loop. -/
theorem OrderBook.queryLoop_eq (t : ℕ → ℚ) (l r : ℕ) (acc : ℚ) :
    queryLoop t l r acc =
      if l < r then
        queryLoop t
          ((if l % 2 = 1 then l + 1 else l) / 2)
          ((if r % 2 = 1 then r - 1 else r) / 2)
          (if r % 2 = 1
            then (if l % 2 = 1 then acc + t l else acc) + t (r - 1)
            else (if l % 2 = 1 then acc + t l else acc))
      else acc := by
  unfold queryLoop
  match r with
  | 0 => simp [queryLoopAux]
  | n + 1 =>
    by_cases hlr : l < n + 1
    · simp only [queryLoopAux, if_pos hlr]
      exact queryLoopAux_congr n _ _ _ _ _ (by split <;> omega) (by split <;> omega)
    · simp [queryLoopAux, hlr]

/-! ### Arithmetic facts about the Python primitives -/

theorem pyInt_intCast (n : ℤ) : pyInt (n : ℚ) = n := by
  simp [pyInt]

theorem pyInt_natCast (n : ℕ) : pyInt (n : ℚ) = n := by
  have := pyInt_intCast (n : ℤ)
  simpa using this

theorem pyInt_eq_floor (q : ℚ) (h : 0 ≤ q) : pyInt q = ⌊q⌋ := by
  rw [Rat.floor_def, pyInt, Int.tdiv_eq_ediv (Rat.num_nonneg.mpr h) (Int.ofNat_nonneg _)]

theorem centMul_mul_100 (p : ℚ) (h : centMul p) : p * 100 = (centsOf p : ℚ) := by
  have hpos : 0 < (p * 100).num := Rat.num_pos.mpr (by nlinarith [h.1])
  have h1 : ((p * 100).num : ℚ) = p * 100 := Rat.coe_int_num_of_den_eq_one h.2
  have h2 : ((centsOf p : ℤ) : ℚ) = p * 100 := by
    rw [centsOf, Int.toNat_of_nonneg hpos.le, h1]
  exact_mod_cast h2.symm

theorem centsOf_pos (p : ℚ) (h : centMul p) : 0 < centsOf p := by
  by_contra hc
  have h0 : centsOf p = 0 := by omega
  have := centMul_mul_100 p h
  rw [h0] at this
  push_cast at this
  nlinarith [h.1]

theorem centsOf_le_points (cap p : ℚ) (hp : centMul p) (hle : p ≤ cap) :
    centsOf p ≤ Int.toNat (pyInt (cap * 100)) := by
  have hcap : (0 : ℚ) ≤ cap * 100 := by nlinarith [hp.1]
  rw [pyInt_eq_floor _ hcap]
  have h1 : (centsOf p : ℚ) ≤ cap * 100 := by
    rw [← centMul_mul_100 p hp]; nlinarith [hp.1]
  have h2 : (centsOf p : ℤ) ≤ ⌊cap * 100⌋ := Int.le_floor.mpr (by exact_mod_cast h1)
  omega

/-! ### The internal-node construction loop -/

theorem dbuild_zero (t : ℕ → ℚ) :
    OrderBook.dbuild t 0 = Function.update t 0 (t 0 + t 1) := rfl

theorem dbuild_succ (t : ℕ → ℚ) (i : ℕ) :
    OrderBook.dbuild t (i + 1) =
      OrderBook.dbuild (Function.update t (i + 1) (t (2 * (i + 1)) + t (2 * (i + 1) + 1))) i := rfl

theorem dbuild_untouched (i : ℕ) : ∀ (t : ℕ → ℚ) (j : ℕ), i < j → OrderBook.dbuild t i j = t j := by
  induction i with
  | zero =>
    intro t j hj
    rw [dbuild_zero, Function.update_noteq (by omega)]
  | succ i ih =>
    intro t j hj
    rw [dbuild_succ, ih _ j (by omega), Function.update_noteq (by omega)]

theorem dbuild_children (i : ℕ) : ∀ (t : ℕ → ℚ) (j : ℕ), 1 ≤ j → j ≤ i →
    OrderBook.dbuild t i j = OrderBook.dbuild t i (2 * j) + OrderBook.dbuild t i (2 * j + 1) := by
  induction i with
  | zero => intro t j h1 h2; omega
  | succ i ih =>
    intro t j h1 h2
    rw [dbuild_succ]
    by_cases hj : j = i + 1
    · subst hj
      rw [dbuild_untouched i _ (i + 1) (by omega),
          dbuild_untouched i _ (2 * (i + 1)) (by omega),
          dbuild_untouched i _ (2 * (i + 1) + 1) (by omega),
          Function.update_same,
          Function.update_noteq (by omega), Function.update_noteq (by omega)]
    · exact ih _ j h1 (by omega)

/-! ### The leaf-initialisation loop -/

theorem foldl_update_range (base : ℕ) (vols : ℕ → ℚ) :
    ∀ (n : ℕ) (t : ℕ → ℚ) (j : ℕ),
    ((List.range n).foldl (fun t i => Function.update t (base + i) (vols i)) t) j
      = if base ≤ j ∧ j < base + n then vols (j - base) else t j := by
  intro n
  induction n with
  | zero => intro t j; rw [List.range_zero, List.foldl_nil, if_neg (by omega)]
  | succ n ih =>
    intro t j
    rw [List.range_succ, List.foldl_append, List.foldl_cons, List.foldl_nil]
    by_cases hj2 : j = base + n
    · subst hj2
      rw [Function.update_same, if_pos (by omega)]
      congr 1
      omega
    · rw [Function.update_noteq hj2, ih]
      by_cases hj : base ≤ j ∧ j < base + n
      · rw [if_pos hj, if_pos (by omega)]
      · rw [if_neg hj, if_neg (by omega)]

theorem buildLeaves_apply (pp : ℕ) (vols t : ℕ → ℚ) (j : ℕ) :
    OrderBook.buildLeaves pp vols t j = if pp ≤ j ∧ j < pp + pp then vols (j - pp) else t j :=
  foldl_update_range pp vols pp t j

/-! ### `__build_order_book`: leaves and invariant -/

theorem build_order_book_leaf (st : OrderBook) (vols : ℕ → ℚ) (j : ℕ)
    (h1 : st.price_points ≤ j) (h2 : j < 2 * st.price_points) :
    st.build_order_book vols j = vols (j - st.price_points) := by
  unfold OrderBook.build_order_book
  rcases hpp : st.price_points with _ | pp
  · omega
  · rw [hpp] at h1 h2
    show OrderBook.dbuild (OrderBook.buildLeaves (pp + 1) vols st.tree) pp j = vols (j - (pp + 1))
    rw [dbuild_untouched pp _ j (by omega), buildLeaves_apply, if_pos (by omega)]

theorem xor_one_even (k : ℕ) : (2 * k) ^^^ 1 = 2 * k + 1 := by
  have h := Nat.xor_bit false k true 0
  simpa [Nat.bit] using h

theorem xor_one_odd (k : ℕ) : (2 * k + 1) ^^^ 1 = 2 * k := by
  have h := Nat.xor_bit true k true 0
  simpa [Nat.bit] using h

/-- A node `i ≥ 2` and its sibling `i ^ 1` are exactly the two children of
`i >> 1`. -/
theorem sibling_sum (t : ℕ → ℚ) (i : ℕ) (h : 2 ≤ i) :
    t i + t (i ^^^ 1) = t (2 * (i / 2)) + t (2 * (i / 2) + 1) := by
  rcases Nat.even_or_odd i with ⟨k, hk⟩ | ⟨k, hk⟩
  · have hk2 : i = 2 * k := by omega
    subst hk2
    rw [xor_one_even, Nat.mul_div_cancel_left k (by omega)]
  · subst hk
    rw [xor_one_odd, Nat.mul_add_div (by omega)]
    norm_num [add_comm]

theorem propagate_untouched : ∀ (i : ℕ) (t : ℕ → ℚ) (j : ℕ), i / 2 < j →
    OrderBook.propagate t i j = t j := by
  intro i
  induction i using Nat.strong_induction_on with
  | _ i ih =>
    intro t j hj
    rw [OrderBook.propagate_eq]
    by_cases hi : 1 < i
    · rw [if_pos hi, ih (i / 2) (Nat.div_lt_self (by omega) (by omega)) _ j (by omega),
          Function.update_noteq (by omega)]
    · rw [if_neg hi]

/-- If the parent-sum property holds everywhere internal except possibly at
`i >> 1`, running the propagation loop from `i` restores it everywhere. -/
theorem propagate_I1 (pp : ℕ) : ∀ (i : ℕ) (t : ℕ → ℚ),
    (∀ j, 1 ≤ j → j < pp → j ≠ i / 2 → t j = t (2 * j) + t (2 * j + 1)) →
    ∀ j, 1 ≤ j → j < pp →
      OrderBook.propagate t i j
        = OrderBook.propagate t i (2 * j) + OrderBook.propagate t i (2 * j + 1) := by
  intro i
  induction i using Nat.strong_induction_on with
  | _ i ih =>
    intro t ht j h1 h2
    by_cases hi : 1 < i
    · rw [OrderBook.propagate_eq, if_pos hi]
      apply ih (i / 2) (Nat.div_lt_self (by omega) (by omega))
      · intro j' h1' h2' hj'
        by_cases hj : j' = i / 2
        · subst hj
          rw [Function.update_same,
              Function.update_noteq (by omega), Function.update_noteq (by omega)]
          exact sibling_sum t i (by omega)
        · rw [Function.update_noteq hj,
              Function.update_noteq (by omega), Function.update_noteq (by omega)]
          exact ht j' h1' h2' hj
      · exact h1
      · exact h2
    · rw [OrderBook.propagate_eq, if_neg hi]
      exact ht j h1 h2 (by omega)

theorem build_order_book_internal (st : OrderBook) (vols : ℕ → ℚ) (j : ℕ)
    (h1 : 1 ≤ j) (h2 : j < st.price_points) :
    st.build_order_book vols j =
      st.build_order_book vols (2 * j) + st.build_order_book vols (2 * j + 1) := by
  unfold OrderBook.build_order_book
  rcases hpp : st.price_points with _ | pp
  · omega
  · rw [hpp] at h2
    show OrderBook.dbuild (OrderBook.buildLeaves (pp + 1) vols st.tree) pp j
      = OrderBook.dbuild (OrderBook.buildLeaves (pp + 1) vols st.tree) pp (2 * j)
        + OrderBook.dbuild (OrderBook.buildLeaves (pp + 1) vols st.tree) pp (2 * j + 1)
    exact dbuild_children pp _ j h1 (by omega)

/-! ### Field preservation and the leaf index -/

theorem update_volume_price_cap (st : OrderBook) (p v : ℚ) :
    (st.update_volume p v).price_cap = st.price_cap := by
  unfold OrderBook.update_volume
  split <;> rfl

theorem update_volume_price_points (st : OrderBook) (p v : ℚ) :
    (st.update_volume p v).price_points = st.price_points := by
  unfold OrderBook.update_volume
  split <;> rfl

theorem update_volume_market_price (st : OrderBook) (p v : ℚ) :
    (st.update_volume p v).market_price = st.market_price := by
  unfold OrderBook.update_volume
  split <;> rfl

theorem update_market_price_tree (st : OrderBook) (p : ℚ) :
    (st.update_market_price p).tree = st.tree := by
  unfold OrderBook.update_market_price
  split <;> rfl

theorem update_market_price_price_cap (st : OrderBook) (p : ℚ) :
    (st.update_market_price p).price_cap = st.price_cap := by
  unfold OrderBook.update_market_price
  split <;> rfl

theorem update_market_price_price_points (st : OrderBook) (p : ℚ) :
    (st.update_market_price p).price_points = st.price_points := by
  unfold OrderBook.update_market_price
  split <;> rfl

theorem init_book_price_cap (st : OrderBook) (bids asks : List (ℚ × ℚ)) :
    (st.init_book bids asks).price_cap = st.price_cap := rfl

theorem init_book_price_points (st : OrderBook) (bids asks : List (ℚ × ℚ)) :
    (st.init_book bids asks).price_points = st.price_points := rfl

theorem init_book_market_price (st : OrderBook) (bids asks : List (ℚ × ℚ)) :
    (st.init_book bids asks).market_price = st.market_price := rfl

theorem applyOp_price_cap (st : OrderBook) (op : Op) :
    (applyOp st op).price_cap = st.price_cap := by
  cases op with
  | initBook bids asks => exact init_book_price_cap st bids asks
  | updateVolume p v => exact update_volume_price_cap st p v
  | updateMarketPrice p => exact update_market_price_price_cap st p

theorem applyOp_price_points (st : OrderBook) (op : Op) :
    (applyOp st op).price_points = st.price_points := by
  cases op with
  | initBook bids asks => exact init_book_price_points st bids asks
  | updateVolume p v => exact update_volume_price_points st p v
  | updateMarketPrice p => exact update_market_price_price_points st p

theorem applyOps_price_cap (ops : List Op) : ∀ (st : OrderBook),
    (applyOps st ops).price_cap = st.price_cap := by
  induction ops with
  | nil => intro st; rfl
  | cons op ops ih =>
    intro st
    show (applyOps (applyOp st op) ops).price_cap = st.price_cap
    rw [ih, applyOp_price_cap]

theorem applyOps_price_points (ops : List Op) : ∀ (st : OrderBook),
    (applyOps st ops).price_points = st.price_points := by
  induction ops with
  | nil => intro st; rfl
  | cons op ops ih =>
    intro st
    show (applyOps (applyOp st op) ops).price_points = st.price_points
    rw [ih, applyOp_price_points]

theorem wellFormed_init (cap : ℚ) : WellFormed (OrderBook.init cap) := rfl

theorem wellFormed_applyOps (st : OrderBook) (ops : List Op) (h : WellFormed st) :
    WellFormed (applyOps st ops) := by
  unfold WellFormed
  rw [applyOps_price_points, applyOps_price_cap]
  exact h

/-- On a cent-multiple price the source's leaf index
`price_points + int(price * 100) - 1` is exactly `price_points + cents - 1`. -/
theorem update_volume_index (st : OrderBook) (p : ℚ) (hp : centMul p) :
    Int.toNat ((st.price_points : ℤ) + pyInt (p * 100) - 1)
      = st.price_points + centsOf p - 1 := by
  rw [centMul_mul_100 p hp, pyInt_natCast]
  have := centsOf_pos p hp
  omega

/-! ### I1 across the operations -/

theorem I1_init (cap : ℚ) : I1 (OrderBook.init cap) := by
  intro i h1 h2
  show (0 : ℚ) = 0 + 0
  norm_num

theorem I1_init_book (st : OrderBook) (bids asks : List (ℚ × ℚ)) :
    I1 (st.init_book bids asks) := by
  intro j h1 h2
  exact build_order_book_internal st _ j h1 h2

theorem I1_update_volume (st : OrderBook) (p v : ℚ) (hI : I1 st)
    (hp : centMul p) :
    I1 (st.update_volume p v) := by
  unfold OrderBook.update_volume
  by_cases hvalid : st.valid_order p v
  · rw [if_pos hvalid]
    intro j h1 h2
    simp only [update_volume_index st p hp]
    have hc1 := centsOf_pos p hp
    apply propagate_I1 st.price_points (st.price_points + centsOf p - 1)
    · intro j' h1' h2' hj'
      rw [Function.update_noteq (by omega), Function.update_noteq (by omega),
          Function.update_noteq (by omega)]
      exact hI j' h1' h2'
    · exact h1
    · exact h2
  · rw [if_neg hvalid]
    exact hI

theorem I1_update_market_price (st : OrderBook) (p : ℚ) (hI : I1 st) :
    I1 (st.update_market_price p) := by
  intro j h1 h2
  rw [update_market_price_tree]
  rw [update_market_price_price_points] at h2
  exact hI j h1 h2

theorem I1_applyOp (st : OrderBook) (op : Op) (hW : WellFormed st)
    (hI : I1 st) (hop : ValidOp st.price_cap op) : I1 (applyOp st op) := by
  cases op with
  | initBook bids asks => exact I1_init_book st bids asks
  | updateVolume p v => exact I1_update_volume st p v hI hop.1
  | updateMarketPrice p => exact I1_update_market_price st p hI

theorem I1_applyOps_general (ops : List Op) : ∀ (st : OrderBook), WellFormed st → I1 st →
    ValidOps st.price_cap ops → I1 (applyOps st ops) := by
  induction ops with
  | nil => intro st _ hI _; exact hI
  | cons op ops ih =>
    intro st hW hI hops
    show I1 (applyOps (applyOp st op) ops)
    have hW' : WellFormed (applyOp st op) := by
      unfold WellFormed
      rw [applyOp_price_points, applyOp_price_cap]
      exact hW
    have hI' : I1 (applyOp st op) := I1_applyOp st op hW hI (hops op (by simp))
    have hops' : ValidOps (applyOp st op).price_cap ops := by
      rw [applyOp_price_cap]
      intro o ho
      exact hops o (by simp [ho])
    exact ih (applyOp st op) hW' hI' hops'

/-- I1 holds in every state reachable by valid operations from a fresh book. -/
theorem I1_reachable (cap : ℚ) (ops : List Op) (h : ValidOps cap ops) :
    I1 (applyOps (OrderBook.init cap) ops) :=
  I1_applyOps_general ops (OrderBook.init cap) (wellFormed_init cap) (I1_init cap) h

/-! ### Subtree sums and the correctness of the range-summation loop -/

theorem subSum_leaf (pp : ℕ) (t : ℕ → ℚ) (i : ℕ) (h : ¬ (1 ≤ i ∧ i < pp)) :
    subSum pp t i = t i := by
  rw [subSum, dif_neg h]

theorem subSum_internal (pp : ℕ) (t : ℕ → ℚ) (i : ℕ) (h1 : 1 ≤ i) (h2 : i < pp) :
    subSum pp t i = subSum pp t (2 * i) + subSum pp t (2 * i + 1) := by
  rw [subSum, dif_pos ⟨h1, h2⟩]

theorem tree_eq_subSum_aux (pp : ℕ) (t : ℕ → ℚ)
    (ht : ∀ j, 1 ≤ j → j < pp → t j = t (2 * j) + t (2 * j + 1)) :
    ∀ (n i : ℕ), 2 * pp - i ≤ n → 1 ≤ i → t i = subSum pp t i := by
  intro n
  induction n with
  | zero =>
    intro i hn h1
    rw [subSum_leaf pp t i (by omega)]
  | succ n ih =>
    intro i hn h1
    by_cases hi : i < pp
    · rw [subSum_internal pp t i h1 hi,
          ← ih (2 * i) (by omega) (by omega), ← ih (2 * i + 1) (by omega) (by omega)]
      exact ht i h1 hi
    · rw [subSum_leaf pp t i (by omega)]

/-- Under I1, every node from index 1 on holds the sum of the leaves below
it. -/
theorem tree_eq_subSum (pp : ℕ) (t : ℕ → ℚ)
    (ht : ∀ j, 1 ≤ j → j < pp → t j = t (2 * j) + t (2 * j + 1)) (i : ℕ) (h1 : 1 ≤ i) :
    t i = subSum pp t i :=
  tree_eq_subSum_aux pp t ht (2 * pp) i (by omega) h1

theorem sum_Ico_double (f : ℕ → ℚ) : ∀ (b a : ℕ),
    (Finset.Ico (2 * a) (2 * b)).sum f
      = (Finset.Ico a b).sum (fun j => f (2 * j) + f (2 * j + 1)) := by
  intro b
  induction b with
  | zero => intro a; simp
  | succ b ih =>
    intro a
    by_cases hab : a ≤ b
    · rw [Finset.sum_Ico_succ_top hab, show 2 * (b + 1) = (2 * b + 1) + 1 by ring,
          Finset.sum_Ico_succ_top (by omega), Finset.sum_Ico_succ_top (by omega), ih]
      ring
    · rw [Finset.Ico_eq_empty (by omega), Finset.Ico_eq_empty (by omega),
          Finset.sum_empty, Finset.sum_empty]

/-- Moving one level up in the tree preserves sums of whole sibling ranges. -/
theorem sum_Ico_collapse (pp : ℕ) (t : ℕ → ℚ) (a b : ℕ) (h1 : 1 ≤ a) (h2 : b ≤ pp) :
    (Finset.Ico (2 * a) (2 * b)).sum (subSum pp t) = (Finset.Ico a b).sum (subSum pp t) := by
  rw [sum_Ico_double]
  apply Finset.sum_congr rfl
  intro j hj
  rw [Finset.mem_Ico] at hj
  exact (subSum_internal pp t j (by omega) (by omega)).symm

/-- Correctness of the iterative segment-tree summation loop: starting from
any node interval `[l, r)` with `l ≥ 1` and `r ≤ 2 * pp`, the loop adds the
subtree sums of the interval to the accumulator. -/
theorem queryLoop_sum (pp : ℕ) (t : ℕ → ℚ)
    (ht : ∀ i, 1 ≤ i → t i = subSum pp t i) :
    ∀ (n l r : ℕ) (acc : ℚ), r ≤ n → 1 ≤ l → r ≤ 2 * pp →
      OrderBook.queryLoop t l r acc = acc + (Finset.Ico l r).sum (subSum pp t) := by
  intro n
  induction n with
  | zero =>
    intro l r acc hn h1 h2
    rw [OrderBook.queryLoop_eq, if_neg (by omega), Finset.Ico_eq_empty (by omega),
        Finset.sum_empty]
    ring
  | succ n ih =>
    intro l r acc hn h1 h2
    by_cases hlr : l < r
    · rw [OrderBook.queryLoop_eq, if_pos hlr]
      rcases Nat.even_or_odd l with ⟨a, hl⟩ | ⟨a, hl⟩ <;>
        rcases Nat.even_or_odd r with ⟨b, hr⟩ | ⟨b, hr⟩
      · -- l even, r even
        obtain rfl : l = 2 * a := by omega
        obtain rfl : r = 2 * b := by omega
        have hc1 : ¬ (2 * a % 2 = 1) := by omega
        have hc2 : ¬ (2 * b % 2 = 1) := by omega
        simp only [if_neg hc1, if_neg hc2]
        rw [Nat.mul_div_cancel_left a (by omega), Nat.mul_div_cancel_left b (by omega),
            ih a b acc (by omega) (by omega) (by omega),
            sum_Ico_collapse pp t a b (by omega) (by omega)]
      · -- l even, r odd
        obtain rfl : l = 2 * a := by omega
        obtain rfl : r = 2 * b + 1 := by omega
        have hc1 : ¬ (2 * a % 2 = 1) := by omega
        have hc2 : (2 * b + 1) % 2 = 1 := by omega
        simp only [if_neg hc1, if_pos hc2]
        rw [show 2 * b + 1 - 1 = 2 * b by omega,
            Nat.mul_div_cancel_left a (by omega),
            Nat.mul_div_cancel_left b (by omega),
            ih a b _ (by omega) (by omega) (by omega),
            Finset.sum_Ico_succ_top (by omega : 2 * a ≤ 2 * b),
            sum_Ico_collapse pp t a b (by omega) (by omega),
            ← ht (2 * b) (by omega)]
        ring
      · -- l odd, r even
        obtain rfl : l = 2 * a + 1 := by omega
        obtain rfl : r = 2 * b := by omega
        have hc1 : (2 * a + 1) % 2 = 1 := by omega
        have hc2 : ¬ (2 * b % 2 = 1) := by omega
        simp only [if_pos hc1, if_neg hc2]
        rw [show (2 * a + 1 + 1) / 2 = a + 1 by omega,
            Nat.mul_div_cancel_left b (by omega),
            ih (a + 1) b _ (by omega) (by omega) (by omega),
            Finset.sum_eq_sum_Ico_succ_bot hlr,
            show 2 * a + 1 + 1 = 2 * (a + 1) by ring,
            sum_Ico_collapse pp t (a + 1) b (by omega) (by omega),
            ← ht (2 * a + 1) (by omega)]
        ring
      · -- l odd, r odd
        obtain rfl : l = 2 * a + 1 := by omega
        obtain rfl : r = 2 * b + 1 := by omega
        have hc1 : (2 * a + 1) % 2 = 1 := by omega
        have hc2 : (2 * b + 1) % 2 = 1 := by omega
        simp only [if_pos hc1, if_pos hc2]
        rw [show 2 * b + 1 - 1 = 2 * b by omega,
            show (2 * a + 1 + 1) / 2 = a + 1 by omega,
            Nat.mul_div_cancel_left b (by omega),
            ih (a + 1) b _ (by omega) (by omega) (by omega),
            Finset.sum_eq_sum_Ico_succ_bot hlr,
            show 2 * a + 1 + 1 = 2 * (a + 1) by ring,
            Finset.sum_Ico_succ_top (by omega : 2 * (a + 1) ≤ 2 * b),
            sum_Ico_collapse pp t (a + 1) b (by omega) (by omega),
            ← ht (2 * a + 1) (by omega), ← ht (2 * b) (by omega)]
        ring
    · rw [OrderBook.queryLoop_eq, if_neg hlr, Finset.Ico_eq_empty (by omega),
          Finset.sum_empty]
      ring

/-! ### Leaf characterisations of the mutating operations -/

theorem update_volume_tree_leaf (st : OrderBook) (p v : ℚ) (hp : centMul p)
    (hcle : centsOf p ≤ st.price_points) (hvalid : st.valid_order p v)
    (j : ℕ) (hj : st.price_points ≤ j) :
    (st.update_volume p v).tree j
      = if j = st.price_points + centsOf p - 1 then v else st.tree j := by
  have hc1 := centsOf_pos p hp
  unfold OrderBook.update_volume
  rw [if_pos hvalid]
  show OrderBook.propagate _ _ j = _
  simp only [update_volume_index st p hp]
  rw [propagate_untouched _ _ j (by omega)]
  by_cases hj2 : j = st.price_points + centsOf p - 1
  · subst hj2
    rw [Function.update_same, if_pos rfl]
  · rw [Function.update_noteq hj2, if_neg hj2]

theorem init_book_tree_leaf (st : OrderBook) (bids asks : List (ℚ × ℚ)) (j : ℕ)
    (h1 : st.price_points ≤ j) (h2 : j < 2 * st.price_points) :
    (st.init_book bids asks).tree j
      = st.gen_vol_array bids asks (j - st.price_points) :=
  build_order_book_leaf st _ j h1 h2

/-! ### `get_volume_in_range` on the valid cent grid -/

/-- P2 in its general form: on a book whose segment tree satisfies I1, the
range query over cent-multiple bounds `lo ≤ hi ≤ price_cap` returns the sum
of the leaves for every cent from `lo` to `hi` inclusive. -/
theorem get_volume_in_range_eq (st : OrderBook) (hW : WellFormed st) (hI : I1 st)
    (lo hi : ℚ) (hlo : centMul lo) (hhi : centMul hi) (hle : lo ≤ hi)
    (hcap : hi ≤ st.price_cap) :
    st.get_volume_in_range lo hi
      = (Finset.Icc (centsOf lo) (centsOf hi)).sum
          (fun c => st.tree (st.price_points + c - 1)) := by
  have hclo := centsOf_pos lo hlo
  have hchi := centsOf_pos hi hhi
  have hcle : centsOf hi ≤ st.price_points := by
    rw [hW]
    exact centsOf_le_points st.price_cap hi hhi hcap
  have hmono : centsOf lo ≤ centsOf hi := by
    have h1 : (centsOf lo : ℚ) ≤ (centsOf hi : ℚ) := by
      rw [← centMul_mul_100 lo hlo, ← centMul_mul_100 hi hhi]
      nlinarith
    exact_mod_cast h1
  have hvlo : st.valid_price lo := ⟨hlo.1, le_trans hle hcap⟩
  have hvhi : st.valid_price hi := ⟨hhi.1, hcap⟩
  unfold OrderBook.get_volume_in_range
  rw [if_pos ⟨hvlo, hvhi⟩]
  have hL : lo * 100 - 1 + (st.price_points : ℚ)
      = ((st.price_points + centsOf lo - 1 : ℕ) : ℚ) := by
    rw [centMul_mul_100 lo hlo,
        Nat.cast_sub (by omega : 1 ≤ st.price_points + centsOf lo)]
    push_cast
    ring
  have hR : (hi + 1/100) * 100 - 1 + (st.price_points : ℚ)
      = ((st.price_points + centsOf hi : ℕ) : ℚ) := by
    rw [show (hi + 1/100) * 100 = hi * 100 + 1 by ring, centMul_mul_100 hi hhi]
    push_cast
    ring
  rw [hL, hR, pyInt_natCast, pyInt_natCast, Int.toNat_natCast, Int.toNat_natCast]
  have htS : ∀ i, 1 ≤ i → st.tree i = subSum st.price_points st.tree i :=
    tree_eq_subSum st.price_points st.tree (fun j hj1 hj2 => hI j hj1 hj2)
  rw [queryLoop_sum st.price_points st.tree htS (st.price_points + centsOf hi)
      _ _ 0 (le_refl _) (by omega) (by omega), zero_add]
  have hsub : (Finset.Ico (st.price_points + centsOf lo - 1) (st.price_points + centsOf hi)).sum
        (subSum st.price_points st.tree)
      = (Finset.Ico (st.price_points + centsOf lo - 1) (st.price_points + centsOf hi)).sum
        st.tree := by
    apply Finset.sum_congr rfl
    intro j hj
    rw [Finset.mem_Ico] at hj
    exact subSum_leaf st.price_points st.tree j (by omega)
  rw [hsub, Finset.sum_Ico_eq_sum_range,
      show Finset.Icc (centsOf lo) (centsOf hi) = Finset.Ico (centsOf lo) (centsOf hi + 1)
        from (Nat.Ico_succ_right _ _).symm,
      Finset.sum_Ico_eq_sum_range,
      show st.price_points + centsOf hi - (st.price_points + centsOf lo - 1)
        = centsOf hi + 1 - centsOf lo by omega]
  apply Finset.sum_congr rfl
  intro k hk
  congr 1
  omega

/-! ### The root equals the sum of all leaves -/

theorem sum_level_eq_leaves (pp : ℕ) (t : ℕ → ℚ) :
    ∀ (n a : ℕ), pp - a ≤ n → 1 ≤ a → a ≤ pp →
      (Finset.Ico a (2 * a)).sum (subSum pp t) = (Finset.Ico pp (2 * pp)).sum t := by
  intro n
  induction n with
  | zero =>
    intro a hn h1 h2
    rw [(by omega : a = pp)]
    apply Finset.sum_congr rfl
    intro j hj
    rw [Finset.mem_Ico] at hj
    exact subSum_leaf pp t j (by omega)
  | succ n ih =>
    intro a hn h1 h2
    by_cases hc : 2 * a ≤ pp
    · rw [← sum_Ico_collapse pp t a (2 * a) h1 hc]
      exact ih (2 * a) (by omega) (by omega) hc
    · rw [← Finset.sum_Ico_consecutive (subSum pp t) (h2 : a ≤ pp) (by omega : pp ≤ 2 * a),
          ← sum_Ico_collapse pp t a pp h1 (le_refl pp)]
      have e1 : (Finset.Ico (2 * a) (2 * pp)).sum (subSum pp t)
          = (Finset.Ico (2 * a) (2 * pp)).sum t := by
        apply Finset.sum_congr rfl
        intro j hj
        rw [Finset.mem_Ico] at hj
        exact subSum_leaf pp t j (by omega)
      have e2 : (Finset.Ico pp (2 * a)).sum (subSum pp t)
          = (Finset.Ico pp (2 * a)).sum t := by
        apply Finset.sum_congr rfl
        intro j hj
        rw [Finset.mem_Ico] at hj
        exact subSum_leaf pp t j (by omega)
      rw [e1, e2, add_comm,
          Finset.sum_Ico_consecutive t (by omega : pp ≤ 2 * a) (by omega : 2 * a ≤ 2 * pp)]

/-- Under I1 the root node holds the sum of every leaf. -/
theorem tree_root_eq_leaves (pp : ℕ) (t : ℕ → ℚ) (hpp : 1 ≤ pp)
    (ht : ∀ j, 1 ≤ j → j < pp → t j = t (2 * j) + t (2 * j + 1)) :
    t 1 = (Finset.Ico pp (2 * pp)).sum t := by
  have h2 := sum_level_eq_leaves pp t pp 1 (by omega) (le_refl 1) hpp
  rw [show (2 : ℕ) * 1 = 1 + 1 from rfl, Finset.sum_Ico_succ_top (le_refl 1),
      Finset.Ico_eq_empty (by omega), Finset.sum_empty, zero_add] at h2
  rw [← h2]
  exact tree_eq_subSum pp t ht 1 (le_refl 1)

/-- Reindex a sum over leaf positions `[pp + a - 1, pp + b)` as a sum over
cents `a … b`. -/
theorem sum_leaves_reindex (pp : ℕ) (t : ℕ → ℚ) (a b : ℕ) (h1 : 1 ≤ a) :
    (Finset.Ico (pp + a - 1) (pp + b)).sum t
      = (Finset.Icc a b).sum (fun c => t (pp + c - 1)) := by
  rw [Finset.sum_Ico_eq_sum_range,
      show Finset.Icc a b = Finset.Ico a (b + 1) from (Nat.Ico_succ_right a b).symm,
      Finset.sum_Ico_eq_sum_range,
      show pp + b - (pp + a - 1) = b + 1 - a by omega]
  apply Finset.sum_congr rfl
  intro k hk
  congr 1
  omega

theorem centsOf_eq (p : ℚ) (n : ℕ) (h : p * 100 = (n : ℚ)) : centsOf p = n := by
  unfold centsOf
  rw [h, Rat.num_natCast, Int.toNat_natCast]

/-- On a well-formed book with a cent-multiple cap, `price_points` is the
cent count of the cap. -/
theorem price_points_eq_centsOf_cap (st : OrderBook) (hW : WellFormed st)
    (hcap : centMul st.price_cap) : st.price_points = centsOf st.price_cap := by
  rw [hW, centMul_mul_100 st.price_cap hcap, pyInt_natCast, Int.toNat_natCast]

/-- `get_total_volume` on a book satisfying I1 with a cent-multiple cap of at
least $0.02: the sum of the leaves for cents `1 … price_points - 1` — the
leaf of the top cent (price = price_cap) is not included. -/
theorem get_total_volume_eq (st : OrderBook) (hW : WellFormed st) (hI : I1 st)
    (hcap : centMul st.price_cap) (h2 : 2 ≤ centsOf st.price_cap) :
    st.get_total_volume
      = (Finset.Icc 1 (st.price_points - 1)).sum
          (fun c => st.tree (st.price_points + c - 1)) := by
  have hq : (2 : ℚ) ≤ st.price_cap * 100 := by
    rw [centMul_mul_100 st.price_cap hcap]
    exact_mod_cast h2
  have hlo : centMul (1/100) := by decide
  have hhiq : (st.price_cap - 1/100) * 100 = ((centsOf st.price_cap - 1 : ℕ) : ℚ) := by
    rw [Nat.cast_sub (by omega : 1 ≤ centsOf st.price_cap), ← centMul_mul_100 _ hcap]
    push_cast
    ring
  have hhi : centMul (st.price_cap - 1/100) := by
    constructor
    · nlinarith
    · rw [hhiq]
      exact Rat.den_natCast _
  unfold OrderBook.get_total_volume
  rw [get_volume_in_range_eq st hW hI (1/100) (st.price_cap - 1/100) hlo hhi
      (by nlinarith) (by nlinarith),
      centsOf_eq (1/100) 1 (by norm_num),
      centsOf_eq (st.price_cap - 1/100) (centsOf st.price_cap - 1) hhiq,
      price_points_eq_centsOf_cap st hW hcap]

/-! ### Claim theorems -/

/-- C1: on every book built by valid operations, for all cent-multiple prices
`lo ≤ hi` not above the cap, `get_volume_in_range lo hi` returns the sum of
the leaf volumes for every cent from `lo` to `hi`, inclusive on both
bounds. -/
theorem C1_range_sum_eq_leaf_sum (cap : ℚ) (ops : List Op) (lo hi : ℚ)
    (hops : ValidOps cap ops)
    (hlo : centMul lo) (hhi : centMul hi) (hle : lo ≤ hi) (hcap : hi ≤ cap) :
    (applyOps (OrderBook.init cap) ops).get_volume_in_range lo hi
      = (Finset.Icc (centsOf lo) (centsOf hi)).sum
          (fun c => (applyOps (OrderBook.init cap) ops).tree
            ((applyOps (OrderBook.init cap) ops).price_points + c - 1)) := by
  apply get_volume_in_range_eq
  · exact wellFormed_applyOps _ ops (wellFormed_init cap)
  · exact I1_reachable cap ops hops
  · exact hlo
  · exact hhi
  · exact hle
  · rw [applyOps_price_cap]
    exact hcap

/-- Witness for C1 at a concrete book: cap $0.05, volumes 1 at $0.02 and 2 at
$0.03, range $0.02 … $0.04. -/
theorem C1_range_sum_eq_leaf_sum_witness :
    ValidOps (5/100) [Op.updateVolume (2/100) 1, Op.updateVolume (3/100) 2]
    ∧ (applyOps (OrderBook.init (5/100))
          [Op.updateVolume (2/100) 1, Op.updateVolume (3/100) 2]).get_volume_in_range
          (2/100) (4/100)
      = (Finset.Icc (centsOf (2/100)) (centsOf (4/100))).sum
          (fun c => (applyOps (OrderBook.init (5/100))
              [Op.updateVolume (2/100) 1, Op.updateVolume (3/100) 2]).tree
            ((applyOps (OrderBook.init (5/100))
              [Op.updateVolume (2/100) 1, Op.updateVolume (3/100) 2]).price_points + c - 1)) :=
  ⟨by decide,
    C1_range_sum_eq_leaf_sum (5/100) [Op.updateVolume (2/100) 1, Op.updateVolume (3/100) 2]
      (2/100) (4/100) (by decide) (by decide) (by decide) (by decide) (by decide)⟩

/-- C2: after any sequence of valid operations on a fresh book, every internal
index `1 ≤ i < price_points` satisfies `tree[i] = tree[2i] + tree[2i+1]`. -/
theorem C2_tree_parent_sums (cap : ℚ) (ops : List Op) (hops : ValidOps cap ops) :
    ∀ i, 1 ≤ i → i < (applyOps (OrderBook.init cap) ops).price_points →
      (applyOps (OrderBook.init cap) ops).tree i
        = (applyOps (OrderBook.init cap) ops).tree (2 * i)
          + (applyOps (OrderBook.init cap) ops).tree (2 * i + 1) :=
  I1_reachable cap ops hops

/-- Witness for C2 at a concrete book: a snapshot followed by an incremental
update. -/
theorem C2_tree_parent_sums_witness :
    ValidOps (5/100) [Op.initBook [(2/100, 1)] [(4/100, 2)], Op.updateVolume (3/100) 3]
    ∧ ∀ i, 1 ≤ i →
        i < (applyOps (OrderBook.init (5/100))
              [Op.initBook [(2/100, 1)] [(4/100, 2)], Op.updateVolume (3/100) 3]).price_points →
        (applyOps (OrderBook.init (5/100))
              [Op.initBook [(2/100, 1)] [(4/100, 2)], Op.updateVolume (3/100) 3]).tree i
          = (applyOps (OrderBook.init (5/100))
              [Op.initBook [(2/100, 1)] [(4/100, 2)], Op.updateVolume (3/100) 3]).tree (2 * i)
            + (applyOps (OrderBook.init (5/100))
              [Op.initBook [(2/100, 1)] [(4/100, 2)], Op.updateVolume (3/100) 3]).tree (2 * i + 1) :=
  ⟨by decide,
    C2_tree_parent_sums (5/100) [Op.initBook [(2/100, 1)] [(4/100, 2)], Op.updateVolume (3/100) 3]
      (by decide)⟩

/-! ### Total volume and `built` on reachable books -/

theorem reach_price_cap (cap : ℚ) (ops : List Op) :
    (applyOps (OrderBook.init cap) ops).price_cap = cap :=
  applyOps_price_cap ops (OrderBook.init cap)

/-- On a reachable book with a cent-multiple cap of at least two cents,
`get_total_volume` sums the leaves for cents `1 … price_points - 1`,
excluding the top cent. -/
theorem reach_total_leaves (cap : ℚ) (ops : List Op) (hops : ValidOps cap ops)
    (hcap : centMul cap) (h2 : 2 ≤ centsOf cap) :
    (applyOps (OrderBook.init cap) ops).get_total_volume
      = (Finset.Icc 1 ((applyOps (OrderBook.init cap) ops).price_points - 1)).sum
          (fun c => (applyOps (OrderBook.init cap) ops).tree
            ((applyOps (OrderBook.init cap) ops).price_points + c - 1)) := by
  apply get_total_volume_eq
  · exact wellFormed_applyOps _ ops (wellFormed_init cap)
  · exact I1_reachable cap ops hops
  · rw [reach_price_cap]
    exact hcap
  · rw [reach_price_cap]
    exact h2

/-- On a reachable book with a cent-multiple cap, the root node holds the sum
of the leaves of every cent `1 … price_points`. -/
theorem reach_root_leaves (cap : ℚ) (ops : List Op) (hops : ValidOps cap ops)
    (hcap : centMul cap) (h2 : 2 ≤ centsOf cap) :
    (applyOps (OrderBook.init cap) ops).tree 1
      = (Finset.Icc 1 (applyOps (OrderBook.init cap) ops).price_points).sum
          (fun c => (applyOps (OrderBook.init cap) ops).tree
            ((applyOps (OrderBook.init cap) ops).price_points + c - 1)) := by
  have hW := wellFormed_applyOps (OrderBook.init cap) ops (wellFormed_init cap)
  have hI := I1_reachable cap ops hops
  have hppn : (applyOps (OrderBook.init cap) ops).price_points = centsOf cap := by
    rw [price_points_eq_centsOf_cap _ hW (by rw [reach_price_cap]; exact hcap),
        reach_price_cap]
  have hpp1 : 1 ≤ (applyOps (OrderBook.init cap) ops).price_points := by omega
  rw [tree_root_eq_leaves (applyOps (OrderBook.init cap) ops).price_points
        (applyOps (OrderBook.init cap) ops).tree hpp1 (fun j hj1 hj2 => hI j hj1 hj2),
      show Finset.Ico (applyOps (OrderBook.init cap) ops).price_points
          (2 * (applyOps (OrderBook.init cap) ops).price_points)
        = Finset.Ico ((applyOps (OrderBook.init cap) ops).price_points + 1 - 1)
          ((applyOps (OrderBook.init cap) ops).price_points
            + (applyOps (OrderBook.init cap) ops).price_points) by congr 1 <;> omega,
      sum_leaves_reindex _ _ 1 _ (le_refl 1)]

/-- C5 (amended): on every reachable book with a cent-multiple cap of at
least $0.02, `get_total_volume()` equals the sum of leaf volumes for cents
$0.01 … price_cap − $0.01; the root `tree[1]` is the sum over all cents up to
and including price_cap, so `get_total_volume()` is `tree[1]` minus the leaf
at price_cap rather than `tree[1]` itself. -/
theorem C5_total_volume_amended (cap : ℚ) (ops : List Op) (hops : ValidOps cap ops)
    (hcap : centMul cap) (h2 : 2 ≤ centsOf cap) :
    (applyOps (OrderBook.init cap) ops).get_total_volume
      = (Finset.Icc 1 ((applyOps (OrderBook.init cap) ops).price_points - 1)).sum
          (fun c => (applyOps (OrderBook.init cap) ops).tree
            ((applyOps (OrderBook.init cap) ops).price_points + c - 1))
    ∧ (applyOps (OrderBook.init cap) ops).tree 1
      = (Finset.Icc 1 (applyOps (OrderBook.init cap) ops).price_points).sum
          (fun c => (applyOps (OrderBook.init cap) ops).tree
            ((applyOps (OrderBook.init cap) ops).price_points + c - 1))
    ∧ (applyOps (OrderBook.init cap) ops).get_total_volume
      = (applyOps (OrderBook.init cap) ops).tree 1
        - (applyOps (OrderBook.init cap) ops).tree
            (2 * (applyOps (OrderBook.init cap) ops).price_points - 1) := by
  have hW := wellFormed_applyOps (OrderBook.init cap) ops (wellFormed_init cap)
  have hppn : (applyOps (OrderBook.init cap) ops).price_points = centsOf cap := by
    rw [price_points_eq_centsOf_cap _ hW (by rw [reach_price_cap]; exact hcap),
        reach_price_cap]
  have h1 := reach_total_leaves cap ops hops hcap h2
  have h3 := reach_root_leaves cap ops hops hcap h2
  refine ⟨h1, h3, ?_⟩
  obtain ⟨m, hm⟩ : ∃ m, (applyOps (OrderBook.init cap) ops).price_points = m + 1 :=
    ⟨(applyOps (OrderBook.init cap) ops).price_points - 1, by omega⟩
  rw [hm] at h3
  rw [Finset.sum_Icc_succ_top (by omega : 1 ≤ m + 1)] at h3
  rw [h1, h3, hm,
      show 2 * (m + 1) - 1 = m + 1 + (m + 1) - 1 by omega,
      show m + 1 - 1 = m by omega]
  ring

/-- C5 (counterexample): a built book reached by one valid snapshot on a cap
of $0.05 with volumes 1 at $0.02 and 2 at exactly the cap $0.05 has
`get_total_volume() = 1` while `tree[1] = 3`, and the range sum over the full
valid domain $0.01 … $0.05 is also `3`; so `get_total_volume()` equals
neither. -/
theorem C5_total_volume_counterexample :
    ValidOps (5/100) [Op.initBook [(2/100, 1)] [(5/100, 2)]]
    ∧ (applyOps (OrderBook.init (5/100)) [Op.initBook [(2/100, 1)] [(5/100, 2)]]).built = true
    ∧ (applyOps (OrderBook.init (5/100))
        [Op.initBook [(2/100, 1)] [(5/100, 2)]]).get_total_volume = 1
    ∧ (applyOps (OrderBook.init (5/100)) [Op.initBook [(2/100, 1)] [(5/100, 2)]]).tree 1 = 3
    ∧ (applyOps (OrderBook.init (5/100))
        [Op.initBook [(2/100, 1)] [(5/100, 2)]]).get_volume_in_range (1/100) (5/100) = 3
    ∧ (1 : ℚ) ≠ 3 := by decide

/-- Witness for the amended C5 at the same concrete book. -/
theorem C5_total_volume_amended_witness :
    ValidOps (5/100) [Op.initBook [(2/100, 1)] [(5/100, 2)]]
    ∧ centMul (5/100) ∧ 2 ≤ centsOf (5/100)
    ∧ ((applyOps (OrderBook.init (5/100)) [Op.initBook [(2/100, 1)] [(5/100, 2)]]).get_total_volume
        = (Finset.Icc 1 ((applyOps (OrderBook.init (5/100))
              [Op.initBook [(2/100, 1)] [(5/100, 2)]]).price_points - 1)).sum
            (fun c => (applyOps (OrderBook.init (5/100))
                [Op.initBook [(2/100, 1)] [(5/100, 2)]]).tree
              ((applyOps (OrderBook.init (5/100))
                [Op.initBook [(2/100, 1)] [(5/100, 2)]]).price_points + c - 1))
      ∧ (applyOps (OrderBook.init (5/100)) [Op.initBook [(2/100, 1)] [(5/100, 2)]]).tree 1
        = (Finset.Icc 1 (applyOps (OrderBook.init (5/100))
              [Op.initBook [(2/100, 1)] [(5/100, 2)]]).price_points).sum
            (fun c => (applyOps (OrderBook.init (5/100))
                [Op.initBook [(2/100, 1)] [(5/100, 2)]]).tree
              ((applyOps (OrderBook.init (5/100))
                [Op.initBook [(2/100, 1)] [(5/100, 2)]]).price_points + c - 1))
      ∧ (applyOps (OrderBook.init (5/100))
            [Op.initBook [(2/100, 1)] [(5/100, 2)]]).get_total_volume
        = (applyOps (OrderBook.init (5/100)) [Op.initBook [(2/100, 1)] [(5/100, 2)]]).tree 1
          - (applyOps (OrderBook.init (5/100)) [Op.initBook [(2/100, 1)] [(5/100, 2)]]).tree
              (2 * (applyOps (OrderBook.init (5/100))
                [Op.initBook [(2/100, 1)] [(5/100, 2)]]).price_points - 1)) :=
  ⟨by decide, by decide, by decide,
    C5_total_volume_amended (5/100) [Op.initBook [(2/100, 1)] [(5/100, 2)]]
      (by decide) (by decide) (by decide)⟩

/-- C6 (amended): on every reachable book with a cent-multiple cap of at
least $0.02, `built()` returns true iff the volume total that excludes the
top cent — `get_total_volume()`, the sum of the leaves for cents
$0.01 … price_cap − $0.01 — is nonzero; `tree[1]` additionally counts the
leaf at price_cap, so `built()` can be false while `tree[1] > 0`. -/
theorem C6_built_amended (cap : ℚ) (ops : List Op) (hops : ValidOps cap ops)
    (hcap : centMul cap) (h2 : 2 ≤ centsOf cap) :
    ((applyOps (OrderBook.init cap) ops).built = true
      ↔ (Finset.Icc 1 ((applyOps (OrderBook.init cap) ops).price_points - 1)).sum
          (fun c => (applyOps (OrderBook.init cap) ops).tree
            ((applyOps (OrderBook.init cap) ops).price_points + c - 1)) ≠ 0)
    ∧ (applyOps (OrderBook.init cap) ops).tree 1
      = (Finset.Icc 1 (applyOps (OrderBook.init cap) ops).price_points).sum
          (fun c => (applyOps (OrderBook.init cap) ops).tree
            ((applyOps (OrderBook.init cap) ops).price_points + c - 1)) := by
  constructor
  · rw [← reach_total_leaves cap ops hops hcap h2]
    unfold OrderBook.built
    exact decide_eq_true_iff
  · exact reach_root_leaves cap ops hops hcap h2

/-- C6 (counterexample): a book reached by a valid snapshot whose only volume
sits exactly at the price cap has root volume `tree[1] = 1 > 0` yet `built()`
returns false. -/
theorem C6_built_counterexample :
    ValidOps (5/100) [Op.initBook [] [(5/100, 1)]]
    ∧ (applyOps (OrderBook.init (5/100)) [Op.initBook [] [(5/100, 1)]]).tree 1 = 1
    ∧ (0 : ℚ) < 1
    ∧ (applyOps (OrderBook.init (5/100)) [Op.initBook [] [(5/100, 1)]]).built = false := by
  decide

/-- Witness for the amended C6 at a concrete book. -/
theorem C6_built_amended_witness :
    ValidOps (5/100) [Op.initBook [] [(5/100, 1)]]
    ∧ centMul (5/100) ∧ 2 ≤ centsOf (5/100)
    ∧ (((applyOps (OrderBook.init (5/100)) [Op.initBook [] [(5/100, 1)]]).built = true
        ↔ (Finset.Icc 1 ((applyOps (OrderBook.init (5/100))
              [Op.initBook [] [(5/100, 1)]]).price_points - 1)).sum
            (fun c => (applyOps (OrderBook.init (5/100)) [Op.initBook [] [(5/100, 1)]]).tree
              ((applyOps (OrderBook.init (5/100))
                [Op.initBook [] [(5/100, 1)]]).price_points + c - 1)) ≠ 0)
      ∧ (applyOps (OrderBook.init (5/100)) [Op.initBook [] [(5/100, 1)]]).tree 1
        = (Finset.Icc 1 (applyOps (OrderBook.init (5/100))
              [Op.initBook [] [(5/100, 1)]]).price_points).sum
            (fun c => (applyOps (OrderBook.init (5/100)) [Op.initBook [] [(5/100, 1)]]).tree
              ((applyOps (OrderBook.init (5/100))
                [Op.initBook [] [(5/100, 1)]]).price_points + c - 1))) :=
  ⟨by decide, by decide, by decide,
    C6_built_amended (5/100) [Op.initBook [] [(5/100, 1)]] (by decide) (by decide) (by decide)⟩

/-- C10: on any built book whose market price is still the initial 0, `query`
returns the row `[0, 0 … 0, 0 … 0, total]`: market-price field 0, every
buy-volume and sell-volume band 0 (the degenerate range `[0, 0]` fails price
validation and yields 0), and the book's total volume as the final field. -/
theorem C10_query_market_zero (st : OrderBook) (bands : List ℚ)
    (hmkt : st.market_price = 0) (hbuilt : st.built = true) :
    st.query bands
      = [0] ++ bands.map (fun _ => (0 : ℚ)) ++ bands.map (fun _ => (0 : ℚ))
          ++ [st.get_total_volume] := by
  have h1 : ∀ p : ℚ, st.get_volume_in_range (0 - 0 * p / 100) 0 = 0 := by
    intro p
    unfold OrderBook.get_volume_in_range
    rw [if_neg]
    intro h
    exact absurd h.2.1 (lt_irrefl 0)
  have h2 : ∀ p : ℚ, st.get_volume_in_range 0 (0 + 0 * p / 100) = 0 := by
    intro p
    unfold OrderBook.get_volume_in_range
    rw [if_neg]
    intro h
    exact absurd h.1.1 (lt_irrefl 0)
  unfold OrderBook.query
  simp only [hmkt, h1, h2]

/-- Witness for C10: a concrete built book with volume at $0.02 and one
band. -/
theorem C10_query_market_zero_witness :
    (applyOps (OrderBook.init (5/100)) [Op.updateVolume (2/100) 1]).market_price = 0
    ∧ (applyOps (OrderBook.init (5/100)) [Op.updateVolume (2/100) 1]).built = true
    ∧ (applyOps (OrderBook.init (5/100)) [Op.updateVolume (2/100) 1]).query [1]
      = [0] ++ [(1 : ℚ)].map (fun _ => (0 : ℚ)) ++ [(1 : ℚ)].map (fun _ => (0 : ℚ))
          ++ [(applyOps (OrderBook.init (5/100)) [Op.updateVolume (2/100) 1]).get_total_volume] :=
  ⟨by decide, by decide,
    C10_query_market_zero (applyOps (OrderBook.init (5/100)) [Op.updateVolume (2/100) 1]) [1]
      (by decide) (by decide)⟩

/-! ### Scenario S4 evaluated -/

theorem s4_leaf : ∀ c, 10000 ≤ c → c ≤ 10050 →
    (applyOps (OrderBook.init 200) s4ops).tree (20000 + c - 1)
      = if c = 10000 then 3 else if c = 10050 then 1/2 else 0 := by
  have h200 : (OrderBook.init 200).price_points = 20000 := by decide
  intro c hc1 hc2
  show (OrderBook.update_market_price
    (OrderBook.update_volume ((OrderBook.init 200).init_book s4bids s4asks) 100 3)
    100).tree (20000 + c - 1) = _
  rw [update_market_price_tree]
  have hpp1 : ((OrderBook.init 200).init_book s4bids s4asks).price_points = 20000 := by
    rw [init_book_price_points]
    exact h200
  rw [update_volume_tree_leaf _ 100 3 (by decide) (by rw [hpp1]; decide) (by decide)
      (20000 + c - 1) (by omega),
      hpp1, show centsOf (100 : ℚ) = 10000 from by decide]
  by_cases hc : c = 10000
  · subst hc
    rw [if_pos (by omega), if_pos rfl]
  · rw [if_neg (by omega), if_neg hc,
        init_book_tree_leaf _ s4bids s4asks (20000 + c - 1)
          (by rw [h200]; omega) (by rw [h200]; omega),
        h200, show 20000 + c - 1 - 20000 = c - 1 by omega,
        show (OrderBook.init 200).gen_vol_array s4bids s4asks
          = Function.update (Function.update (Function.update (fun _ => (0 : ℚ)) 9999 (3/2))
              9949 2) 10049 (1/2) from rfl]
    by_cases hc5 : c = 10050
    · subst hc5
      rw [show (10050 : ℕ) - 1 = 10049 from rfl, Function.update_same, if_pos rfl]
    · rw [Function.update_noteq (by omega), Function.update_noteq (by omega),
          Function.update_noteq (by omega), if_neg hc5]

theorem s4_range_value :
    (applyOps (OrderBook.init 200) s4ops).get_volume_in_range 100 (201/2) = 7/2 := by
  have hops : ValidOps 200 s4ops := by decide
  have hW := wellFormed_applyOps (OrderBook.init 200) s4ops (wellFormed_init 200)
  have hI := I1_reachable 200 s4ops hops
  rw [get_volume_in_range_eq _ hW hI 100 (201/2) (by decide) (by decide) (by norm_num)
      (by rw [reach_price_cap]; norm_num)]
  have hpp : (applyOps (OrderBook.init 200) s4ops).price_points = 20000 := by
    rw [applyOps_price_points]
    exact (by decide : (OrderBook.init 200).price_points = 20000)
  simp only [hpp, show centsOf (100 : ℚ) = 10000 from by decide,
    show centsOf ((201 : ℚ)/2) = 10050 from by decide]
  have hsum : (Finset.Icc (10000 : ℕ) 10050).sum
        (fun c => (applyOps (OrderBook.init 200) s4ops).tree (20000 + c - 1))
      = (Finset.Icc (10000 : ℕ) 10050).sum
        (fun c => if c = 10000 then (3 : ℚ) else if c = 10050 then 1/2 else 0) := by
    apply Finset.sum_congr rfl
    intro c hc
    rw [Finset.mem_Icc] at hc
    exact s4_leaf c hc.1 hc.2
  rw [hsum]
  decide

/-- C4 (counterexample): with price_cap = 200, after the S2 snapshot,
`update_volume("100.00", 3.0)` and `update_market_price("100.00")`, the
sell-side band at 0.5% — the range sum from $100.00 to $100.50 — is 3.5,
not the claimed 0.5. -/
theorem C4_sell_band_counterexample :
    (applyOps (OrderBook.init 200) s4ops).get_volume_in_range 100 (201/2) = 7/2
    ∧ (7/2 : ℚ) ≠ 1/2 :=
  ⟨s4_range_value, by norm_num⟩

/-- C4 (amended): the range sum from $100.00 to $100.50 is inclusive on both
bounds, so the sell-side band at 0.5% counts the 3.0 at the market price
$100.00 (set by the update after the snapshot) together with the 0.5 resting
at $100.50, giving 3.5. -/
theorem C4_sell_band_amended :
    (applyOps (OrderBook.init 200) s4ops).market_price = 100
    ∧ (applyOps (OrderBook.init 200) s4ops).tree 29999 = 3
    ∧ (applyOps (OrderBook.init 200) s4ops).tree 30049 = 1/2
    ∧ (applyOps (OrderBook.init 200) s4ops).get_volume_in_range 100 (201/2)
      = (applyOps (OrderBook.init 200) s4ops).tree 29999
        + (applyOps (OrderBook.init 200) s4ops).tree 30049 := by
  have h1 : (applyOps (OrderBook.init 200) s4ops).tree 29999 = 3 := by
    have h := s4_leaf 10000 (by omega) (by omega)
    simpa using h
  have h2 : (applyOps (OrderBook.init 200) s4ops).tree 30049 = 1/2 := by
    have h := s4_leaf 10050 (by omega) (by omega)
    simpa using h
  refine ⟨by decide, h1, h2, ?_⟩
  rw [s4_range_value, h1, h2]
  norm_num

/-! ### C3: l2update frames -/

/-- C3 (counterexample): on fresh books, the two-change l2update frame
`c3frame` leaves the $0.03 leaf (index 7 = price_points 5 + cent 3 − 1) at 0
although its second change sets it to 2; only the first change ($0.02, leaf
index 6) is applied. -/
theorem C3_l2update_counterexample :
    (update_order_book c3books c3frame "BTC-USD").tree 7 = 0
    ∧ (update_order_book c3books c3frame "BTC-USD").tree 6 = 1
    ∧ (0 : ℚ) ≠ 2 := by decide

/-- C3 (amended): an l2update frame for a tracked product applies exactly one
absolute `update_volume` — with the price and size of the first entry of
`changes` — to that product's book; every later change in the frame is
ignored. -/
theorem C3_l2update_first_change_only (books : String → OrderBook) (m : Message)
    (c : String × ℚ × ℚ) (rest : List (String × ℚ × ℚ))
    (htype : m.type = GDAXConst.l2update)
    (hch : m.changes = c :: rest)
    (hprod : m.product_id ∈ product_ids) :
    update_order_book books m
      = Function.update books m.product_id
          ((books m.product_id).update_volume c.2.1 c.2.2) := by
  unfold update_order_book
  rw [htype, hch]
  simp only [if_pos (show pyStrIn GDAXConst.l2update GDAXConst.l2update by decide),
    if_neg (show ¬ pyStrIn GDAXConst.match_msg GDAXConst.l2update by decide),
    if_neg (show ¬ pyStrIn GDAXConst.snapshot GDAXConst.l2update by decide),
    if_pos hprod]

/-- Witness for the amended C3 at the concrete frame and fresh books. -/
theorem C3_l2update_first_change_only_witness :
    c3frame.type = GDAXConst.l2update
    ∧ c3frame.changes = ("buy", 2/100, (1 : ℚ)) :: [("sell", 3/100, 2)]
    ∧ c3frame.product_id ∈ product_ids
    ∧ update_order_book c3books c3frame
      = Function.update c3books c3frame.product_id
          ((c3books c3frame.product_id).update_volume (2/100) 1) :=
  ⟨rfl, rfl, by decide,
    C3_l2update_first_change_only c3books c3frame ("buy", 2/100, 1) [("sell", 3/100, 2)]
      rfl rfl (by decide)⟩

/-! ### C8: the ticker row against the table schema -/

/-- C8 (code_bug exhibit): `insert_ticker` on the section-6 ticker frame
produces a 10-value row in the frame's own key order
`(system_time, server_time, product_id, price, best_bid, best_ask, open_24h,
volume_24h, side, last_size)`, which the positional INSERT binds to the
`tickers` columns in schema order — so the frame's `best_bid` marker (9)
lands in the `open_24h` column (position 4) and the `open_24h` marker (7)
lands in the `best_bid` column (position 6). -/
theorem C8_ticker_column_misalignment :
    insert_ticker_row (JVal.num 0) (JVal.str "t") s6_ticker_frame
      = [JVal.num 0, JVal.str "t", JVal.str "BTC-USD", JVal.num (12345/100),
         JVal.num 9, JVal.num 11, JVal.num 7, JVal.num 8, JVal.str "buy", JVal.num 3]
    ∧ (insert_ticker_row (JVal.num 0) (JVal.str "t") s6_ticker_frame).length = 10
    ∧ tickers_schema.get? 4 = some "open_24h"
    ∧ (insert_ticker_row (JVal.num 0) (JVal.str "t") s6_ticker_frame).get? 4
        = some (JVal.num 9)
    ∧ tickers_schema.get? 6 = some "best_bid"
    ∧ (insert_ticker_row (JVal.num 0) (JVal.str "t") s6_ticker_frame).get? 6
        = some (JVal.num 7)
    ∧ JVal.num 9 ≠ JVal.num 7 := by decide

/-! ### C9: sink-error handling -/

/-- C9 (counterexample): a sink error that is neither lock contention nor a
uniqueness violation, arriving 300 s after the last report, is claimed to
send an operator-channel notification — but `__post_to_slack` is initialised
to False and never enabled, so `requests.post` does not fire. -/
theorem C9_slack_counterexample :
    ¬ pyStrIn "database is locked" "attempt to write a readonly database"
    ∧ ¬ pyStrIn "UNIQUE" "attempt to write a readonly database"
    ∧ (initHandlerState 700).last_error ≤ 1000 - 300
    ∧ (write_to_db_onError (initHandlerState 700)
        "attempt to write a readonly database" 1000).2.2 = false := by decide

/-- C9 (amended): on lock contention or a uniqueness violation the row is
dropped with no operator-channel activity at all; on any other sink error the
message is handed to the slack writer iff at least 300 s have elapsed since
the rate-limit clock, which is then advanced to `now` (at most one hand-off
per 5 minutes) — but the writer posts only when `post_to_slack` is enabled,
and no code path enables it, so no notification is actually sent. -/
theorem C9_error_handling_amended (st : HandlerState) (err : String) (now : ℚ)
    (hpost : st.post_to_slack = false) :
    (write_to_db_onError st err now).2.2 = false
    ∧ (write_to_db_onError st err now).1.post_to_slack = false
    ∧ (pyStrIn "database is locked" err ∨ pyStrIn "UNIQUE" err →
        write_to_db_onError st err now = (st, false, false))
    ∧ (¬ pyStrIn "database is locked" err → ¬ pyStrIn "UNIQUE" err →
        ((write_to_db_onError st err now).2.1 = true ↔ st.last_error ≤ now - 300))
    ∧ ((write_to_db_onError st err now).2.1 = true →
        (write_to_db_onError st err now).1.last_error = now) := by
  unfold write_to_db_onError
  by_cases h1 : ¬ pyStrIn "database is locked" err ∧ ¬ pyStrIn "UNIQUE" err
  · rw [if_pos h1]
    by_cases h2 : st.last_error ≤ now - 300
    · rw [if_pos h2]
      refine ⟨hpost, hpost, ?_, ?_, ?_⟩
      · intro h
        rcases h with h | h
        · exact absurd h h1.1
        · exact absurd h h1.2
      · intro _ _
        simp [h2]
      · intro _
        rfl
    · rw [if_neg h2]
      refine ⟨rfl, hpost, ?_, ?_, ?_⟩
      · intro h
        rcases h with h | h
        · exact absurd h h1.1
        · exact absurd h h1.2
      · intro _ _
        simp [h2]
      · intro h
        simp at h
  · rw [if_neg h1]
    refine ⟨rfl, hpost, fun _ => rfl, ?_, ?_⟩
    · intro ha hb
      exact absurd ⟨ha, hb⟩ h1
    · intro h
      simp at h

/-- Witness for the amended C9 at the handler's initial state and a readonly
error 300 s later. -/
theorem C9_error_handling_amended_witness :
    (initHandlerState 700).post_to_slack = false
    ∧ ((write_to_db_onError (initHandlerState 700)
          "attempt to write a readonly database" 1000).2.2 = false
      ∧ (write_to_db_onError (initHandlerState 700)
          "attempt to write a readonly database" 1000).1.post_to_slack = false
      ∧ (pyStrIn "database is locked" "attempt to write a readonly database"
          ∨ pyStrIn "UNIQUE" "attempt to write a readonly database" →
          write_to_db_onError (initHandlerState 700)
            "attempt to write a readonly database" 1000 = (initHandlerState 700, false, false))
      ∧ (¬ pyStrIn "database is locked" "attempt to write a readonly database" →
          ¬ pyStrIn "UNIQUE" "attempt to write a readonly database" →
          ((write_to_db_onError (initHandlerState 700)
              "attempt to write a readonly database" 1000).2.1 = true
            ↔ (initHandlerState 700).last_error ≤ 1000 - 300))
      ∧ ((write_to_db_onError (initHandlerState 700)
            "attempt to write a readonly database" 1000).2.1 = true →
          (write_to_db_onError (initHandlerState 700)
            "attempt to write a readonly database" 1000).1.last_error = 1000)) :=
  ⟨rfl, C9_error_handling_amended (initHandlerState 700)
    "attempt to write a readonly database" 1000 rfl⟩

/-! ### C7: cent accuracy of the string-to-index conversion -/

/-- C7 (code_bug exhibit): for the cent-multiple price string "8.03" on the
BTC-USD book (price_cap 50000, price_points 5000000), the exact cent count is
803 and exact arithmetic would store at leaf `price_points + 803 - 1`; but
`int(float(price) * 100)` under binary64 arithmetic yields 802 — the nearest
double to 8.03 is below it and `8.03 * 100` rounds to
802.99999999999994… — so the volume is stored at the leaf of $8.02. -/
theorem C7_float_cent_drift :
    centMul (803/100)
    ∧ (803/100 : ℚ) ≤ 50000
    ∧ pyInt ((803/100 : ℚ) * 100) = 803
    ∧ update_volume_leaf_index_ieee 5000000 (803/100) = 5000000 + 802 - 1
    ∧ update_volume_leaf_index_ieee 5000000 (803/100) ≠ 5000000 + 803 - 1 := by decide
